import Mathlib

/-!
Verification of the relayr exchange hub (Go) against its specification.

The development shallowly embeds the relevant parts of the source:

* `exchange.go` (the revision with the `verbosity` field and the nil-guarded
  group iteration): relay registration and resolution (`RegisterRelay`,
  `getMethodsForType`, `getRelayByName`), server-side dispatch
  (`callRelayMethod`, `buildArgValues`, `callServer`), the group registry
  (`addToGroup`, `removeFromGroupByID`, `removeFromAllGroups`,
  `getClientIndexInGroup`, `getClientByConnectionID`) and the client-call
  fan-out (`callClientMethod`, `callGroupMethod`, `callGroupMethodExcept`).
* `websocket-transport.go`: the outbound encoder and connection table of
  `CallClientFunction`, the inbound `read` loop, and the `listen` event loop
  handling connected/disconnected notifications.

Go maps become association lists, `nil` pointers become `Option`, and a Go
runtime panic (nil-pointer dereference) is made explicit: functions that can
panic return their result paired with an `Option GoPanic` (state mutations
performed before the panic are kept, matching Go, where a recovered panic
leaves earlier writes in place).
-/

namespace Relayr

/-- Model of a Go `interface{}` value as carried in call envelopes
(JSON-compatible: strings, integers, booleans, arrays). -/
inductive GoValue : Type
  | str (s : String)
  | int (n : Int)
  | boolean (b : Bool)
  | array (xs : List GoValue)

/-- A Go runtime panic relevant to this code base: dereferencing a nil
`*Relay` (e.g. `relay.t` or `relay.Name` on a nil handle) or a nil
`*client` (`c.ConnectionID` on a nil entry). -/
inductive GoPanic : Type
  | nilRelay
  | nilClient
  deriving DecidableEq, Repr

/-- Receiver kind of a declared Go method: value receiver `func (t T)` or
pointer receiver `func (t *T)`. -/
inductive Receiver : Type
  | value
  | pointer
  deriving DecidableEq, Repr

/-- An exported method declared on a Go struct type: its name and its
receiver kind. -/
structure GoMethod : Type where
  name : String
  receiver : Receiver
  deriving DecidableEq, Repr

/-- Model of a Go type descriptor (`reflect.Type` of the struct value passed
to `RegisterRelay`): the type's name and its declared exported methods. -/
structure GoType : Type where
  name : String
  methods : List GoMethod
  deriving DecidableEq, Repr

/-- Source `getMethodsForType` (exchange.go:253): enumerates
`t.Method(i).Name` for `i < t.NumMethod()` on the value type `T`.
By Go's method-set rule, the method set of `T` holds exactly the methods
declared with a value receiver, so this collects exactly those names. -/
def getMethodsForType (t : GoType) : List String :=
  (t.methods.filter (fun m => m.receiver == Receiver.value)).map GoMethod.name

/-- Method set of the pointer type `*T`: by Go's method-set rule it holds
every declared method, value receiver or pointer receiver. This is the set
`reflect.New(t).MethodByName` searches, since `reflect.New` produces a `*T`
value (used by `callRelayMethod`, exchange.go:287-288). -/
def GoType.pointerMethodSet (t : GoType) : List String :=
  t.methods.map GoMethod.name

/-- Source `client` struct: one logical peer, identified by its connection
id, delivering through one transport. The transport is modelled by its
registry key ("websocket" / "longpoll"); the back-pointer to the exchange
is dropped. -/
structure client : Type where
  ConnectionID : String
  transport : String
  deriving DecidableEq, Repr

/-- A registered relay definition as stored in `Exchange.relays` by
`RegisterRelay` (exchange.go:245-251): name, underlying type descriptor and
the method names collected at registration time. -/
structure RelayDef : Type where
  Name : String
  t : GoType
  methods : List String
  deriving DecidableEq, Repr

/-- A relay handle as built by `getRelayByName` (exchange.go:262-284):
name, bound connection id, and the underlying type descriptor. The
`Clients` capability and exchange back-pointer carry no data beyond the
fields already present here and are dropped. -/
structure Relay : Type where
  Name : String
  ConnectionID : String
  t : GoType
  deriving DecidableEq, Repr

/-- The `Exchange` hub state used by the claims: the registered relay
definitions, the group registry (`map[string][]*client`, modelled as an
association list of group name to member list; a nil `*client` entry is
`none`), and the logging verbosity. -/
structure Exchange : Type where
  relays : List RelayDef
  groups : List (String × List (Option client))
  verbosity : Int

/-- Source `RegisterRelay` (exchange.go:245-251): appends a definition whose
method list is `getMethodsForType` of the value type. -/
def registerRelay (e : Exchange) (t : GoType) : Exchange :=
  { e with relays := e.relays ++ [{ Name := t.name, t := t, methods := getMethodsForType t }] }

/-- Source `getRelayByName` (exchange.go:262-284): first registered
definition with a matching name yields a fresh handle carrying the requested
connection id; otherwise the Go function returns nil (`none`). -/
def getRelayByName (e : Exchange) (name cID : String) : Option Relay :=
  match e.relays.find? (fun r => r.Name == name) with
  | some r => some { Name := name, ConnectionID := cID, t := r.t }
  | none => none

/-- A value passed to a reflective method invocation: the relay handle or a
plain wire value (model of `reflect.Value`). -/
inductive CallValue : Type
  | handle (r : Relay)
  | val (v : GoValue)

/-- Source `buildArgValues` (exchange.go:298-305): the handle first, then
the supplied arguments in order. -/
def buildArgValues (relay : Relay) (args : List GoValue) : List CallValue :=
  CallValue.handle relay :: args.map CallValue.val

/-- Outcome of `callRelayMethod`: a runtime panic, the returned
"Method does not exist" error (the spec's `UnknownMethod`), or exactly one
invocation of the named method with the given argument values. -/
inductive CallOutcome : Type
  | panicked (p : GoPanic)
  | unknownMethod (fn relayName : String)
  | invoked (fn : String) (argv : List CallValue)

/-- Source `callRelayMethod` (exchange.go:286-296). `reflect.New(relay.t)`
dereferences the handle first: on a nil `*Relay` this panics. Otherwise
`MethodByName` searches the method set of the fresh `*T` instance
(`GoType.pointerMethodSet`); a miss returns the error, a hit calls the
method once with `buildArgValues relay args`. -/
def callRelayMethod (relay : Option Relay) (fn : String) (args : List GoValue) : CallOutcome :=
  match relay with
  | none => CallOutcome.panicked GoPanic.nilRelay
  | some r =>
      if fn ∈ r.t.pointerMethodSet then
        CallOutcome.invoked fn (buildArgValues r args)
      else
        CallOutcome.unknownMethod fn r.Name

/-- The resolution-then-dispatch composition performed by `callServer`
(exchange.go:183-190) and by the read loop's server branch
(websocket-transport.go:106-109): resolve the relay by name, then call
`callRelayMethod` on the (possibly nil) result. -/
def dispatchServerCall (e : Exchange) (relayName cID fn : String) (args : List GoValue) : CallOutcome :=
  callRelayMethod (getRelayByName e relayName cID) fn args

/-- An exchange with no registered relays and no groups. -/
def emptyExchange : Exchange :=
  { relays := [], groups := [], verbosity := 0 }

/-- Claim C1: the spec says an inbound call naming an unregistered relay
aborts with `UnknownRelay` and is handled locally without crashing the hub.
The code instead passes the nil result of `getRelayByName` straight to
`callRelayMethod`, which dereferences it (`reflect.New(relay.t)`) and
panics: at a concrete unregistered name the dispatch outcome is a nil-relay
panic, not an `UnknownRelay` abort (in `callServer` the panic occurs in a
freshly spawned goroutine and terminates the process). -/
theorem c1_unknownRelay_dispatch_panics :
    getRelayByName emptyExchange "Ghost" "c7" = none ∧
    dispatchServerCall emptyExchange "Ghost" "c7" "Send" [] =
      CallOutcome.panicked GoPanic.nilRelay := by
  exact ⟨rfl, rfl⟩

/-- A relay type whose single exported method has a pointer receiver. -/
def secretChatType : GoType :=
  { name := "Chat", methods := [{ name := "Secret", receiver := Receiver.pointer }] }

/-- An exchange with `secretChatType` registered as relay "Chat". -/
def secretChatExchange : Exchange :=
  registerRelay emptyExchange secretChatType

/-- Claim C2, counterexample: registration collects the method set of the
value type `T` (value-receiver methods only), but dispatch looks the name up
in the method set of a fresh `*T`, which also holds pointer-receiver
methods. For a relay type whose method `Secret` has a pointer receiver, the
registered method set is empty, yet dispatching `Secret` invokes it —
so a name absent from the registered set is invoked rather than rejected
with `UnknownMethod`. -/
theorem c2_pointer_receiver_method_invoked :
    getMethodsForType secretChatType = [] ∧
    dispatchServerCall secretChatExchange "Chat" "c1" "Secret" [] =
      CallOutcome.invoked "Secret"
        [CallValue.handle { Name := "Chat", ConnectionID := "c1", t := secretChatType }] := by
  exact ⟨rfl, rfl⟩

/-- Claim C2, amended: for a registered relay, dispatch invokes a method iff
its name is in the method set of the freshly instantiated pointer type `*T`;
that set contains every name collected at registration (the value type's
method set), so every registered name is invoked — exactly once, with the
handle as first argument followed by the supplied arguments in order — and
every name outside `*T`'s method set fails with `UnknownMethod` and invokes
nothing. (Names of pointer-receiver methods are invokable despite not being
collected at registration; the two sets coincide exactly when every method
has a value receiver.) -/
theorem c2_dispatch_bounded_by_pointer_method_set
    (e : Exchange) (name cID fn : String) (args : List GoValue) (d : RelayDef)
    (hreg : e.relays.find? (fun r => r.Name == name) = some d) :
    (fn ∈ d.t.pointerMethodSet →
      dispatchServerCall e name cID fn args =
        CallOutcome.invoked fn
          (CallValue.handle { Name := name, ConnectionID := cID, t := d.t }
            :: args.map CallValue.val)) ∧
    (fn ∉ d.t.pointerMethodSet →
      dispatchServerCall e name cID fn args = CallOutcome.unknownMethod fn name) ∧
    (∀ m, m ∈ getMethodsForType d.t → m ∈ d.t.pointerMethodSet) := by
  refine ⟨?_, ?_, ?_⟩
  · intro hmem
    simp [dispatchServerCall, getRelayByName, hreg, callRelayMethod, hmem, buildArgValues]
  · intro hmem
    simp [dispatchServerCall, getRelayByName, hreg, callRelayMethod, hmem]
  · intro m hm
    simp only [getMethodsForType, List.mem_map, List.mem_filter] at hm
    rcases hm with ⟨g, ⟨hg, _⟩, rfl⟩
    exact List.mem_map.mpr ⟨g, hg, rfl⟩

/-- Claim C2, witness for the amended theorem: a relay "Calc" with a
value-receiver method "Add" is registered; dispatching "Add" invokes it with
the handle first and the argument in order, and dispatching "Missing" fails
with `UnknownMethod`. -/
theorem c2_dispatch_bounded_witness :
    let calcT : GoType := { name := "Calc", methods := [{ name := "Add", receiver := Receiver.value }] }
    let e := registerRelay emptyExchange calcT
    dispatchServerCall e "Calc" "c9" "Add" [GoValue.int 2] =
      CallOutcome.invoked "Add"
        [CallValue.handle { Name := "Calc", ConnectionID := "c9", t := calcT },
          CallValue.val (GoValue.int 2)] ∧
    dispatchServerCall e "Calc" "c9" "Missing" [] = CallOutcome.unknownMethod "Missing" "Calc" := by
  intro calcT e
  refine ⟨?_, ?_⟩
  · exact (c2_dispatch_bounded_by_pointer_method_set e "Calc" "c9" "Add" [GoValue.int 2]
      { Name := "Calc", t := calcT, methods := ["Add"] } rfl).1
      (by simp [GoType.pointerMethodSet, calcT])
  · exact (c2_dispatch_bounded_by_pointer_method_set e "Calc" "c9" "Missing" []
      { Name := "Calc", t := calcT, methods := ["Add"] } rfl).2.1
      (by simp [GoType.pointerMethodSet, calcT])

/-- Member list of one group: Go `[]*client`, a nil entry being `none`. -/
abbrev Members : Type := List (Option client)

/-- The group registry: Go `map[string][]*client` as an association list. -/
abbrev Groups : Type := List (String × Members)

/-- Go map read of a group's entry (`e.groups[g]` presence and value). -/
def findGroup (gs : Groups) (g : String) : Option (String × Members) :=
  gs.find? (fun p => p.1 == g)

/-- Value read by `e.groups[g]`: a missing key reads as the empty slice. -/
def membersOf (gs : Groups) (g : String) : Members :=
  match findGroup gs g with
  | some p => p.2
  | none => []

/-- Members of a group of the exchange. -/
def groupMembers (e : Exchange) (g : String) : Members :=
  membersOf e.groups g

/-- Go map write `e.groups[g] = v`: replaces the entry for the key,
creating it when absent. -/
def setGroup : Groups → String → Members → Groups
  | [], g, v => [(g, v)]
  | p :: rest, g, v => if p.1 == g then (p.1, v) :: rest else p :: setGroup rest g v

/-- Go map delete `delete(e.groups, g)`. -/
def delGroup : Groups → String → Groups
  | [], _ => []
  | p :: rest, g => if p.1 == g then delGroup rest g else p :: delGroup rest g

/-- The membership test of `getClientIndexInGroup`'s loop:
`c != nil && c.ConnectionID == id`. -/
def matchesId (id : String) : Option client → Bool
  | some c => c.ConnectionID == id
  | none => false

/-- Number of member entries matching a connection id. -/
def occCount (id : String) (ms : Members) : Nat :=
  (ms.filter (matchesId id)).length

/-- Index of the first member entry matching the id, if any (the loop of
`getClientIndexInGroup`). -/
def memberIndexAux (id : String) : Members → Option Nat
  | [] => none
  | oc :: rest =>
      if matchesId id oc then some 0
      else (memberIndexAux id rest).map (· + 1)

/-- Source `getClientIndexInGroup` (exchange.go:415-425): index of the first
non-nil member with the given connection id, else -1. -/
def getClientIndexInGroup (e : Exchange) (g id : String) : Int :=
  match memberIndexAux id (groupMembers e g) with
  | some i => (i : Int)
  | none => -1

/-- Loop of `getClientByConnectionID` (exchange.go:369-378) over the
"Global" member list. The loop reads `c.ConnectionID` with no nil check, so
a nil entry reached before any match panics. -/
def lookupGlobalAux (cID : String) : Members → Except GoPanic (Option client)
  | [] => Except.ok none
  | none :: _ => Except.error GoPanic.nilClient
  | some c :: rest =>
      if c.ConnectionID == cID then Except.ok (some c) else lookupGlobalAux cID rest

/-- Source `getClientByConnectionID` (exchange.go:369-378): resolves a
connection id to its client record by scanning "Global". -/
def getClientByConnectionID (e : Exchange) (cID : String) : Except GoPanic (Option client) :=
  lookupGlobalAux cID (groupMembers e "Global")

/-- Source `addToGroup` (exchange.go:427-448). If no member matches the id,
the result of the "Global" lookup (possibly nil) is appended. With
`verbosity > 0` a logging loop then reads `c.ConnectionID` of every member
of the group (in both branches), panicking at a nil entry; mutations made
before such a panic are kept, as in Go. -/
def addToGroup (e : Exchange) (group connectionID : String) : Exchange × Option GoPanic :=
  if getClientIndexInGroup e group connectionID == -1 then
    match getClientByConnectionID e connectionID with
    | Except.error p => (e, some p)
    | Except.ok cl =>
        let e' : Exchange := { e with groups := setGroup e.groups group (groupMembers e group ++ [cl]) }
        if e.verbosity > 0 then
          if (groupMembers e' group).any (fun oc => oc.isNone) then (e', some GoPanic.nilClient)
          else (e', none)
        else (e', none)
  else
    if e.verbosity > 0 then
      if (groupMembers e group).any (fun oc => oc.isNone) then (e, some GoPanic.nilClient)
      else (e, none)
    else (e, none)

/-- Source `removeFromGroupByID` (exchange.go:389-413): when the id is found
at index i, `append(group[:i], group[i+1:]...)` drops that entry; the group
is deleted from the registry once its member list is empty. -/
def removeFromGroupByID (e : Exchange) (g id : String) : Exchange :=
  let i := getClientIndexInGroup e g id
  if i > -1 then
    let ms := groupMembers e g
    let ms' := ms.take i.toNat ++ ms.drop (i.toNat + 1)
    if ms'.length == 0 then { e with groups := delGroup e.groups g }
    else { e with groups := setGroup e.groups g ms' }
  else e

/-- Source `removeFromAllGroups` (exchange.go:380-387): removes the id from
every group. Go's map range visits each original key once
(`removeFromGroupByID` only ever deletes the key currently processed), so
the iteration is a fold over the key list. -/
def removeFromAllGroups (e : Exchange) (id : String) : Exchange :=
  e.groups.foldl (fun acc p => removeFromGroupByID acc p.1 id) e

/-- Connection ids of the non-nil entries of a member list. -/
def memberIds (ms : Members) : List String :=
  ms.filterMap (fun oc => oc.map client.ConnectionID)

theorem memberIndexAux_eq_none_iff (id : String) (ms : Members) :
    memberIndexAux id ms = none ↔ occCount id ms = 0 := by
  induction ms with
  | nil => simp [memberIndexAux, occCount]
  | cons oc rest ih =>
      by_cases h : matchesId id oc
      · simp [memberIndexAux, occCount, List.filter_cons, h]
      · simp [memberIndexAux, occCount, List.filter_cons, h, Option.map_eq_none'] at ih ⊢
        exact ih

theorem memberIndexAux_spec (id : String) (ms : Members) (i : Nat)
    (h : memberIndexAux id ms = some i) :
    i < ms.length ∧
    occCount id (ms.take i ++ ms.drop (i + 1)) + 1 = occCount id ms ∧
    (ms.take i ++ ms.drop (i + 1)).length + 1 = ms.length := by
  induction ms generalizing i with
  | nil => simp [memberIndexAux] at h
  | cons oc rest ih =>
      by_cases hm : matchesId id oc
      · simp [memberIndexAux, hm] at h
        subst h
        refine ⟨by simp, ?_, by simp⟩
        simp [occCount, List.filter_cons, hm]
      · simp [memberIndexAux, hm, Option.map_eq_some'] at h
        obtain ⟨j, hj, rfl⟩ := h
        obtain ⟨h1, h2, h3⟩ := ih j hj
        refine ⟨by simpa using Nat.succ_lt_succ h1, ?_, ?_⟩
        · simpa [occCount, List.filter_cons, hm] using h2
        · simpa using h3

theorem lookupGlobalAux_ok_some (cID : String) (ms : Members) (c : client)
    (h : lookupGlobalAux cID ms = Except.ok (some c)) : c.ConnectionID = cID := by
  induction ms with
  | nil => simp [lookupGlobalAux] at h
  | cons oc rest ih =>
      match oc with
      | none => simp [lookupGlobalAux] at h
      | some c' =>
          by_cases hc : c'.ConnectionID == cID
          · simp [lookupGlobalAux, hc] at h
            subst h
            exact eq_of_beq hc
          · simp [lookupGlobalAux, hc] at h
            exact ih h

theorem occCount_append (id : String) (ms ns : Members) :
    occCount id (ms ++ ns) = occCount id ms + occCount id ns := by
  simp [occCount, List.filter_append]

theorem occCount_singleton_le (id : String) (oc : Option client) :
    occCount id [oc] ≤ 1 := by
  simp only [occCount, List.filter]
  split <;> simp

theorem membersOf_setGroup_self (gs : Groups) (g : String) (v : Members) :
    membersOf (setGroup gs g v) g = v := by
  induction gs with
  | nil => simp [setGroup, membersOf, findGroup, List.find?]
  | cons p rest ih =>
      by_cases h : p.1 == g
      · simp [setGroup, h, membersOf, findGroup, List.find?]
      · simpa [setGroup, h, membersOf, findGroup, List.find?] using ih

theorem findGroup_setGroup_other (gs : Groups) (g g' : String) (v : Members)
    (h : g' ≠ g) : findGroup (setGroup gs g v) g' = findGroup gs g' := by
  induction gs with
  | nil =>
      have hne : (g == g') = false := by
        simp only [beq_eq_false_iff_ne]
        exact h.symm
      simp [setGroup, findGroup, List.find?, hne]
  | cons p rest ih =>
      by_cases hp : p.1 == g
      · have hpg : p.1 = g := eq_of_beq hp
        have hne : (p.1 == g') = false := by
          simp only [beq_eq_false_iff_ne, hpg]
          exact h.symm
        simp [setGroup, hp, findGroup, List.find?, hne]
      · by_cases hp' : p.1 == g'
        · simp [setGroup, hp, findGroup, List.find?, hp']
        · simpa [setGroup, hp, findGroup, List.find?, hp'] using ih

theorem findGroup_delGroup_self (gs : Groups) (g : String) :
    findGroup (delGroup gs g) g = none := by
  induction gs with
  | nil => simp [delGroup, findGroup, List.find?]
  | cons p rest ih =>
      by_cases hp : p.1 == g
      · simpa [delGroup, hp] using ih
      · simpa [delGroup, hp, findGroup, List.find?] using ih

theorem findGroup_delGroup_other (gs : Groups) (g g' : String) (h : g' ≠ g) :
    findGroup (delGroup gs g) g' = findGroup gs g' := by
  induction gs with
  | nil => simp [delGroup]
  | cons p rest ih =>
      by_cases hp : p.1 == g
      · have hpg : p.1 = g := eq_of_beq hp
        have hne : (p.1 == g') = false := by
          simp only [beq_eq_false_iff_ne, hpg]
          exact h.symm
        simpa [delGroup, hp, findGroup, List.find?, hne] using ih
      · by_cases hp' : p.1 == g'
        · simp [delGroup, hp, findGroup, List.find?, hp']
        · simpa [delGroup, hp, findGroup, List.find?, hp'] using ih

/-- Claim C4: a client appears at most once per group. When some member of
the group already carries the connection id (comparison by id through
`getClientIndexInGroup`, never by pointer identity), `addToGroup` is a
no-op: the exchange is returned unchanged, no entry is appended and no
panic occurs; and starting from a group holding the id at most once, the
group still holds it at most once after any `addToGroup` of that id. The
group is assumed free of nil entries (its members are client records). -/
theorem c4_addToGroup_idempotent (e : Exchange) (g id : String)
    (hclean : ∀ oc ∈ groupMembers e g, oc.isSome = true) :
    (0 < occCount id (groupMembers e g) → addToGroup e g id = (e, none)) ∧
    (occCount id (groupMembers e g) ≤ 1 →
      ∀ e' p, addToGroup e g id = (e', p) → occCount id (groupMembers e' g) ≤ 1) := by
  have hany : (groupMembers e g).any (fun oc => oc.isNone) = false := by
    simp only [List.any_eq_false]
    intro oc hoc
    have := hclean oc hoc
    cases oc with
    | none => simp at this
    | some c => simp
  have hfirst : 0 < occCount id (groupMembers e g) → addToGroup e g id = (e, none) := by
    intro hpos
    have hnone : memberIndexAux id (groupMembers e g) ≠ none := by
      intro hn
      rw [memberIndexAux_eq_none_iff] at hn
      omega
    obtain ⟨i, hi⟩ := Option.ne_none_iff_exists'.mp hnone
    have hcond : (getClientIndexInGroup e g id == -1) = false := by
      simp only [getClientIndexInGroup, hi, beq_eq_false_iff_ne]
      omega
    simp [addToGroup, hcond, hany]
  refine ⟨hfirst, ?_⟩
  intro hle e' p hadd
  have he' : e' = (addToGroup e g id).1 := by rw [hadd]
  rcases Nat.eq_zero_or_pos (occCount id (groupMembers e g)) with hzero | hpos
  · have hidx : memberIndexAux id (groupMembers e g) = none :=
      (memberIndexAux_eq_none_iff id _).mpr hzero
    have hcond : (getClientIndexInGroup e g id == -1) = true := by
      simp [getClientIndexInGroup, hidx]
    cases hlook : getClientByConnectionID e id with
    | error p0 =>
        have hfst : (addToGroup e g id).1 = e := by
          simp [addToGroup, hcond, hlook]
        rw [he', hfst]
        exact hle
    | ok cl =>
        have hfst : (addToGroup e g id).1
            = { e with groups := setGroup e.groups g (groupMembers e g ++ [cl]) } := by
          simp [addToGroup, hcond, hlook, apply_ite Prod.fst]
        rw [he', hfst]
        have hmem : groupMembers { e with groups := setGroup e.groups g (groupMembers e g ++ [cl]) } g
            = groupMembers e g ++ [cl] := by
          simp [groupMembers, membersOf_setGroup_self]
        rw [hmem, occCount_append, hzero]
        simpa using occCount_singleton_le id cl
  · rw [he', hfirst hpos]
    exact hle

/-- A websocket client record used by concrete instances. -/
def wsClient1 : client :=
  { ConnectionID := "c1", transport := "websocket" }

/-- An exchange whose group "room1" already holds client "c1". -/
def c4Exchange : Exchange :=
  { relays := [], groups := [("room1", [some wsClient1])], verbosity := 0 }

/-- Claim C4, witness: with "c1" already a member of "room1", `addToGroup`
returns the exchange unchanged and the membership count stays at most 1. -/
theorem c4_addToGroup_witness :
    addToGroup c4Exchange "room1" "c1" = (c4Exchange, none) ∧
    occCount "c1" (groupMembers c4Exchange "room1") ≤ 1 := by
  have h := c4_addToGroup_idempotent c4Exchange "room1" "c1" (by decide)
  exact ⟨h.1 (by decide), h.2 (by decide) c4Exchange none (h.1 (by decide))⟩

theorem findGroup_setGroup_self (gs : Groups) (g : String) (v : Members) :
    findGroup (setGroup gs g v) g = some (g, v) := by
  induction gs with
  | nil => simp [setGroup, findGroup, List.find?]
  | cons p rest ih =>
      by_cases hp : p.1 == g
      · have hpg : p.1 = g := eq_of_beq hp
        simp [setGroup, hp, findGroup, List.find?, hpg]
      · simpa [setGroup, hp, findGroup, List.find?] using ih

theorem findGroup_eq_none_of_any_eq_false (gs : Groups) (g : String)
    (h : gs.any (fun p => p.1 == g) = false) : findGroup gs g = none := by
  rw [findGroup, List.find?_eq_none]
  exact List.any_eq_false.mp h

theorem findGroup_key (gs : Groups) (g : String) (q : String × Members)
    (h : findGroup gs g = some q) : q.1 = g := by
  rw [findGroup] at h
  have hp := List.find?_some h
  exact eq_of_beq hp

/-- Effect of `removeFromGroupByID` on its own group's registry entry: the
first matching member is dropped, and the entry disappears when the member
list becomes empty. -/
def pruneFind (id : String) : Option (String × Members) → Option (String × Members)
  | none => none
  | some q =>
      match memberIndexAux id q.2 with
      | none => some q
      | some i =>
          let ms' := q.2.take i ++ q.2.drop (i + 1)
          if ms'.length == 0 then none else some (q.1, ms')

theorem removeFromGroupByID_find_self (e : Exchange) (g id : String) :
    findGroup (removeFromGroupByID e g id).groups g = pruneFind id (findGroup e.groups g) := by
  cases hq : findGroup e.groups g with
  | none =>
      have hm : groupMembers e g = [] := by simp [groupMembers, membersOf, hq]
      have hgi : getClientIndexInGroup e g id = -1 := by
        simp [getClientIndexInGroup, hm, memberIndexAux]
      simp [removeFromGroupByID, hgi, pruneFind, hq]
  | some q =>
      obtain ⟨k, ms⟩ := q
      have hk : k = g := findGroup_key e.groups g (k, ms) hq
      subst hk
      have hm : groupMembers e k = ms := by simp [groupMembers, membersOf, hq]
      cases hidx : memberIndexAux id ms with
      | none =>
          have hgi : getClientIndexInGroup e k id = -1 := by
            simp [getClientIndexInGroup, hm, hidx]
          simp [removeFromGroupByID, hgi, pruneFind, hq, hidx]
      | some i =>
          have hgi : getClientIndexInGroup e k id = (i : Int) := by
            simp [getClientIndexInGroup, hm, hidx]
          have hred : removeFromGroupByID e k id =
              (if ((ms.take i ++ ms.drop (i + 1)).length == 0) = true
               then { e with groups := delGroup e.groups k }
               else { e with groups := setGroup e.groups k (ms.take i ++ ms.drop (i + 1)) }) := by
            simp only [removeFromGroupByID, hgi, hm]
            rw [if_pos (by omega : (i : Int) > -1)]
            simp only [Int.toNat_natCast]
          rw [hred]
          simp only [pruneFind, hidx]
          by_cases hlen : ((ms.take i ++ ms.drop (i + 1)).length == 0) = true
          · rw [if_pos hlen, if_pos hlen]
            exact findGroup_delGroup_self e.groups k
          · rw [if_neg hlen, if_neg hlen]
            exact findGroup_setGroup_self e.groups k (ms.take i ++ ms.drop (i + 1))

theorem removeFromGroupByID_find_other (e : Exchange) (g g' id : String) (h : g' ≠ g) :
    findGroup (removeFromGroupByID e g id).groups g' = findGroup e.groups g' := by
  simp only [removeFromGroupByID]
  split
  · split
    · exact findGroup_delGroup_other e.groups g g' h
    · exact findGroup_setGroup_other e.groups g g' _ h
  · rfl

theorem foldl_remove_find (id : String) (todo : List (String × Members)) (acc : Exchange)
    (g : String) (hn : (todo.map Prod.fst).Nodup) :
    findGroup ((todo.foldl (fun a p => removeFromGroupByID a p.1 id) acc)).groups g =
      if todo.any (fun p => p.1 == g) then pruneFind id (findGroup acc.groups g)
      else findGroup acc.groups g := by
  induction todo generalizing acc with
  | nil => simp
  | cons p rest ih =>
      have hn1 : p.1 ∉ rest.map Prod.fst := (List.nodup_cons.mp hn).1
      have hn2 : (rest.map Prod.fst).Nodup := (List.nodup_cons.mp hn).2
      simp only [List.foldl_cons]
      by_cases hpg : p.1 = g
      · subst hpg
        have hrest : rest.any (fun q => q.1 == p.1) = false := by
          rw [List.any_eq_false]
          intro q hq hq1
          exact hn1 (List.mem_map.mpr ⟨q, hq, eq_of_beq hq1⟩)
        rw [ih _ hn2, hrest]
        simp only [if_neg Bool.false_ne_true]
        rw [removeFromGroupByID_find_self]
        simp [List.any_cons]
      · have hstep := removeFromGroupByID_find_other acc p.1 g id (Ne.symm hpg)
        have hb : (p.1 == g) = false := beq_eq_false_iff_ne.mpr hpg
        rw [ih _ hn2, hstep, List.any_cons, hb, Bool.false_or]

theorem removeFromAllGroups_find (e : Exchange) (id g : String)
    (hn : (e.groups.map Prod.fst).Nodup) :
    findGroup (removeFromAllGroups e id).groups g = pruneFind id (findGroup e.groups g) := by
  rw [removeFromAllGroups, foldl_remove_find id e.groups e g hn]
  by_cases h : e.groups.any (fun p => p.1 == g)
  · simp [h]
  · have hfalse : e.groups.any (fun p => p.1 == g) = false := Bool.eq_false_iff.mpr h
    have hnone := findGroup_eq_none_of_any_eq_false e.groups g hfalse
    simp [hfalse, hnone, pruneFind]

/-- Claim C5: under the registry invariants (distinct group keys; each group
holds at most one member with the id), `removeFromAllGroups id` (1) leaves
no group containing a member with that id, (2) leaves every group in which
the id is absent untouched (idempotent removal — the group's registry entry
is exactly what it was), and (3) deletes from the registry any group whose
single member carried the id. -/
theorem c5_removeFromAllGroups_clears_id (e : Exchange) (id : String)
    (hn : (e.groups.map Prod.fst).Nodup)
    (hocc : ∀ p ∈ e.groups, occCount id p.2 ≤ 1) :
    (∀ g, occCount id (groupMembers (removeFromAllGroups e id) g) = 0) ∧
    (∀ g, occCount id (groupMembers e g) = 0 →
      findGroup (removeFromAllGroups e id).groups g = findGroup e.groups g) ∧
    (∀ g ms, findGroup e.groups g = some (g, ms) → occCount id ms = 1 → ms.length = 1 →
      findGroup (removeFromAllGroups e id).groups g = none) := by
  refine ⟨?_, ?_, ?_⟩
  · intro g
    rw [groupMembers, membersOf, removeFromAllGroups_find e id g hn]
    cases hq : findGroup e.groups g with
    | none => simp [pruneFind, occCount]
    | some q =>
        have hq2 : occCount id q.2 ≤ 1 := hocc q (List.mem_of_find?_eq_some hq)
        cases hidx : memberIndexAux id q.2 with
        | none =>
            have h0 := (memberIndexAux_eq_none_iff id q.2).mp hidx
            simp [pruneFind, hidx, h0]
        | some i =>
            obtain ⟨_, hocc', _⟩ := memberIndexAux_spec id q.2 i hidx
            have h0 : occCount id (q.2.take i ++ q.2.drop (i + 1)) = 0 := by omega
            simp only [pruneFind, hidx]
            by_cases hlen : ((q.2.take i ++ q.2.drop (i + 1)).length == 0) = true
            · rw [if_pos hlen]
              simp [occCount]
            · rw [if_neg hlen]
              exact h0
  · intro g hg0
    rw [removeFromAllGroups_find e id g hn]
    cases hq : findGroup e.groups g with
    | none => simp [pruneFind]
    | some q =>
        have hm : groupMembers e g = q.2 := by simp [groupMembers, membersOf, hq]
        rw [hm] at hg0
        have hidx : memberIndexAux id q.2 = none := (memberIndexAux_eq_none_iff id q.2).mpr hg0
        simp [pruneFind, hidx]
  · intro g ms hq h1 hlen1
    rw [removeFromAllGroups_find e id g hn, hq]
    have hne : memberIndexAux id ms ≠ none := fun hn0 => by
      have := (memberIndexAux_eq_none_iff id ms).mp hn0
      omega
    obtain ⟨i, hi⟩ := Option.ne_none_iff_exists'.mp hne
    obtain ⟨_, _, hlen⟩ := memberIndexAux_spec id ms i hi
    have hz : (ms.take i ++ ms.drop (i + 1)).length = 0 := by omega
    simp [pruneFind, hi, hz]

/-- A second websocket client record used by concrete instances. -/
def wsClient2 : client :=
  { ConnectionID := "c2", transport := "websocket" }

/-- An exchange with clients "c1","c2" in "Global" and "c1" alone in
"room1". -/
def c5Exchange : Exchange :=
  { relays := [],
    groups := [("Global", [some wsClient1, some wsClient2]), ("room1", [some wsClient1])],
    verbosity := 0 }

/-- Claim C5, witness: removing "c1" from all groups leaves "Global" with no
member "c1", deletes the emptied group "room1" entirely, and leaves the
absent key "lobby" as it was. -/
theorem c5_removeFromAllGroups_witness :
    occCount "c1" (groupMembers (removeFromAllGroups c5Exchange "c1") "Global") = 0 ∧
    findGroup (removeFromAllGroups c5Exchange "c1").groups "room1" = none ∧
    findGroup (removeFromAllGroups c5Exchange "c1").groups "lobby" =
      findGroup c5Exchange.groups "lobby" := by
  have h := c5_removeFromAllGroups_clears_id c5Exchange "c1" (by decide) (by decide)
  exact ⟨h.1 "Global",
    h.2.2 "room1" [some wsClient1] (by decide) (by decide) (by decide),
    h.2.1 "lobby" (by decide)⟩

/-- One invocation of `Transport.CallClientFunction` made by the exchange's
fan-out code: the client's transport key, the relay handle passed (its
`ConnectionID` is the delivery target), the method name and the arguments. -/
structure Delivery : Type where
  transport : String
  relay : Relay
  fn : String
  args : List GoValue

/-- Loop of `callGroupMethod` (exchange.go:326-355): a nil member is
skipped (`if c == nil { continue }`); for a client member the relay name is
re-resolved onto the member's connection id and the member's transport is
invoked with the resulting handle. A failed resolution panics inside
`CallClientFunction` (`relay.Name` on a nil `*Relay`); deliveries already
made are kept. -/
def callGroupLoop (e : Exchange) (name fn : String) (args : List GoValue) :
    Members → List Delivery × Option GoPanic
  | [] => ([], none)
  | none :: rest => callGroupLoop e name fn args rest
  | some c :: rest =>
      match getRelayByName e name c.ConnectionID with
      | none => ([], some GoPanic.nilRelay)
      | some r =>
          let t := callGroupLoop e name fn args rest
          ({ transport := c.transport, relay := r, fn := fn, args := args } :: t.1, t.2)

/-- Source `callGroupMethod` (exchange.go:326-355): a missing group is a
logged no-op; otherwise the member loop runs. -/
def callGroupMethod (e : Exchange) (relay : Relay) (group fn : String) (args : List GoValue) :
    List Delivery × Option GoPanic :=
  match findGroup e.groups group with
  | some p => callGroupLoop e relay.Name fn args p.2
  | none => ([], none)

/-- Source `callClientMethod` (exchange.go:314-324): an empty connection id
broadcasts to "Global"; otherwise the single client resolved from "Global"
(if any) is invoked with the handle itself, and an unresolved id delivers
nothing. -/
def callClientMethod (e : Exchange) (r : Relay) (fn : String) (args : List GoValue) :
    List Delivery × Option GoPanic :=
  if r.ConnectionID == "" then callGroupMethod e r "Global" fn args
  else
    match getClientByConnectionID e r.ConnectionID with
    | Except.error p => ([], some p)
    | Except.ok none => ([], none)
    | Except.ok (some c) =>
        ([{ transport := c.transport, relay := r, fn := fn, args := args }], none)

/-- Loop of `callGroupMethodExcept` (exchange.go:357-367): no nil check, so
`c.ConnectionID` on a nil member panics; members whose id equals the
handle's are skipped; every other member's transport is invoked with the
relay re-resolved onto that member's id. -/
def callGroupExceptLoop (e : Exchange) (name exceptID fn : String) (args : List GoValue) :
    Members → List Delivery × Option GoPanic
  | [] => ([], none)
  | none :: _ => ([], some GoPanic.nilClient)
  | some c :: rest =>
      if c.ConnectionID == exceptID then callGroupExceptLoop e name exceptID fn args rest
      else
        match getRelayByName e name c.ConnectionID with
        | none => ([], some GoPanic.nilRelay)
        | some r =>
            let t := callGroupExceptLoop e name exceptID fn args rest
            ({ transport := c.transport, relay := r, fn := fn, args := args } :: t.1, t.2)

/-- Source `callGroupMethodExcept` (exchange.go:357-367). -/
def callGroupMethodExcept (e : Exchange) (relay : Relay) (group fn : String)
    (args : List GoValue) : List Delivery × Option GoPanic :=
  callGroupExceptLoop e relay.Name relay.ConnectionID fn args (groupMembers e group)

/-- Deliveries a group fan-out of relay `name` (underlying type `t`)
produces: one per client member, addressed to that member's connection id. -/
def expectedGroupDeliveries (name : String) (t : GoType) (fn : String) (args : List GoValue)
    (ms : Members) : List Delivery :=
  ms.filterMap (fun oc => oc.map (fun c =>
    { transport := c.transport,
      relay := { Name := name, ConnectionID := c.ConnectionID, t := t },
      fn := fn, args := args }))

theorem callGroupLoop_registered (e : Exchange) (name fn : String) (args : List GoValue)
    (d : RelayDef) (hreg : e.relays.find? (fun q => q.Name == name) = some d)
    (ms : Members) :
    callGroupLoop e name fn args ms = (expectedGroupDeliveries name d.t fn args ms, none) := by
  induction ms with
  | nil => simp [callGroupLoop, expectedGroupDeliveries]
  | cons oc rest ih =>
      cases oc with
      | none => simpa [callGroupLoop, expectedGroupDeliveries] using ih
      | some c =>
          simp [callGroupLoop, getRelayByName, hreg, expectedGroupDeliveries, ih]

theorem callGroupExceptLoop_registered (e : Exchange) (name exceptID fn : String)
    (args : List GoValue) (d : RelayDef)
    (hreg : e.relays.find? (fun q => q.Name == name) = some d)
    (ms : Members) (hclean : ∀ oc ∈ ms, oc.isSome = true) :
    callGroupExceptLoop e name exceptID fn args ms =
      (ms.filterMap (fun oc => oc.bind (fun c =>
        if c.ConnectionID == exceptID then none
        else some { transport := c.transport,
                    relay := { Name := name, ConnectionID := c.ConnectionID, t := d.t },
                    fn := fn, args := args })), none) := by
  induction ms with
  | nil => simp [callGroupExceptLoop]
  | cons oc rest ih =>
      have hh := hclean oc (List.mem_cons_self oc rest)
      cases oc with
      | none => simp at hh
      | some c =>
          have ih' := ih (fun x hx => hclean x (List.mem_cons_of_mem _ hx))
          by_cases hx : c.ConnectionID = exceptID
          · simp [callGroupExceptLoop, hx, ih']
          · simp [callGroupExceptLoop, hx, getRelayByName, hreg, ih']

/-- Claim C6: broadcast policy of the handle-based client calls. With the
handle's relay name registered: (1) a call through a handle with an empty
connection id fans out to every client member of "Global", each member
addressed through a fresh handle bound to that member's id; (2) a call
through a bound handle whose id resolves to a client delivers exactly once,
to that connection, and (3) delivers nothing when the id resolves to no
client; (4) `callGroupMethodExcept` (on a group free of nil entries)
delivers to exactly the members whose connection id differs from the
handle's own. -/
theorem c6_broadcast_policy (e : Exchange) (r : Relay) (fn : String) (args : List GoValue)
    (d : RelayDef) (hreg : e.relays.find? (fun q => q.Name == r.Name) = some d) :
    (r.ConnectionID = "" →
      callClientMethod e r fn args =
        (expectedGroupDeliveries r.Name d.t fn args (groupMembers e "Global"), none)) ∧
    (∀ c, r.ConnectionID ≠ "" →
      getClientByConnectionID e r.ConnectionID = Except.ok (some c) →
      callClientMethod e r fn args =
        ([{ transport := c.transport, relay := r, fn := fn, args := args }], none)) ∧
    (r.ConnectionID ≠ "" → getClientByConnectionID e r.ConnectionID = Except.ok none →
      callClientMethod e r fn args = ([], none)) ∧
    (∀ g, (∀ oc ∈ groupMembers e g, oc.isSome = true) →
      callGroupMethodExcept e r g fn args =
        ((groupMembers e g).filterMap (fun oc => oc.bind (fun c =>
          if c.ConnectionID == r.ConnectionID then none
          else some { transport := c.transport,
                      relay := { Name := r.Name, ConnectionID := c.ConnectionID, t := d.t },
                      fn := fn, args := args })), none)) := by
  refine ⟨?_, ?_, ?_, ?_⟩
  · intro h0
    rw [callClientMethod, if_pos (by simp [h0]), callGroupMethod]
    cases hfind : findGroup e.groups "Global" with
    | none =>
        have hm : groupMembers e "Global" = [] := by simp [groupMembers, membersOf, hfind]
        simp [hm, expectedGroupDeliveries]
    | some p =>
        have hm : groupMembers e "Global" = p.2 := by simp [groupMembers, membersOf, hfind]
        rw [hm]
        exact callGroupLoop_registered e r.Name fn args d hreg p.2
  · intro c hne hres
    rw [callClientMethod, if_neg (by simpa using hne), hres]
  · intro hne hres
    rw [callClientMethod, if_neg (by simpa using hne), hres]
  · intro g hclean
    rw [callGroupMethodExcept]
    exact callGroupExceptLoop_registered e r.Name r.ConnectionID fn args d hreg
      (groupMembers e g) hclean

/-- The relay type used by concrete broadcast instances: one value-receiver
method "Msg". -/
def chatType : GoType :=
  { name := "Chat", methods := [{ name := "Msg", receiver := Receiver.value }] }

/-- An exchange with relay "Chat" registered, clients "c1","c2" in "Global"
and both also in "room1". -/
def c6Exchange : Exchange :=
  { relays := [{ Name := "Chat", t := chatType, methods := ["Msg"] }],
    groups := [("Global", [some wsClient1, some wsClient2]),
               ("room1", [some wsClient1, some wsClient2])],
    verbosity := 0 }

/-- Claim C6, witness: on `c6Exchange`, an empty-id handle broadcasts to
both Global members, a handle bound to "c1" delivers to "c1" alone, and the
except-call on "room1" from "c1" delivers to "c2" alone. -/
theorem c6_broadcast_witness :
    callClientMethod c6Exchange { Name := "Chat", ConnectionID := "", t := chatType } "Msg" [] =
      ([{ transport := "websocket",
          relay := { Name := "Chat", ConnectionID := "c1", t := chatType }, fn := "Msg", args := [] },
        { transport := "websocket",
          relay := { Name := "Chat", ConnectionID := "c2", t := chatType }, fn := "Msg", args := [] }],
        none) ∧
    callClientMethod c6Exchange { Name := "Chat", ConnectionID := "c1", t := chatType } "Msg" [] =
      ([{ transport := "websocket",
          relay := { Name := "Chat", ConnectionID := "c1", t := chatType }, fn := "Msg", args := [] }],
        none) ∧
    callGroupMethodExcept c6Exchange { Name := "Chat", ConnectionID := "c1", t := chatType }
        "room1" "Msg" [] =
      ([{ transport := "websocket",
          relay := { Name := "Chat", ConnectionID := "c2", t := chatType }, fn := "Msg", args := [] }],
        none) := by
  have hb := c6_broadcast_policy c6Exchange { Name := "Chat", ConnectionID := "", t := chatType }
    "Msg" [] { Name := "Chat", t := chatType, methods := ["Msg"] } (by decide)
  have hc := c6_broadcast_policy c6Exchange { Name := "Chat", ConnectionID := "c1", t := chatType }
    "Msg" [] { Name := "Chat", t := chatType, methods := ["Msg"] } (by decide)
  refine ⟨?_, ?_, ?_⟩
  · exact (hb.1 rfl).trans rfl
  · exact (hc.2.1 wsClient1 (by decide) rfl).trans rfl
  · exact (hc.2.2.2 "room1" (by decide)).trans rfl

theorem lookupGlobalAux_ok_none (cID : String) (ms : Members)
    (hclean : ∀ oc ∈ ms, oc.isSome = true) (h0 : occCount cID ms = 0) :
    lookupGlobalAux cID ms = Except.ok none := by
  induction ms with
  | nil => simp [lookupGlobalAux]
  | cons oc rest ih =>
      have hh := hclean oc (List.mem_cons_self oc rest)
      cases oc with
      | none => simp at hh
      | some c =>
          by_cases hc : c.ConnectionID = cID
          · simp [occCount, List.filter_cons, matchesId, hc] at h0
          · simp only [occCount, List.filter_cons, matchesId] at h0
            rw [if_neg (by simp [hc])] at h0
            simp only [lookupGlobalAux]
            rw [if_neg (by simp [hc])]
            exact ih (fun x hx => hclean x (List.mem_cons_of_mem _ hx)) h0

theorem callGroupLoop_append_nil (e : Exchange) (name fn : String) (args : List GoValue)
    (ms : Members) :
    callGroupLoop e name fn args (ms ++ [none]) = callGroupLoop e name fn args ms := by
  induction ms with
  | nil => simp [callGroupLoop]
  | cons oc rest ih =>
      cases oc with
      | none => simpa [callGroupLoop] using ih
      | some c =>
          cases hr : getRelayByName e name c.ConnectionID with
          | none => simp [callGroupLoop, hr]
          | some r => simp [callGroupLoop, hr, ih]

/-- Claim C9: with verbose logging off, adding a connection id that has no
client record in "Global" (and is not yet in the target group) appends a
nil entry to the group's member list — the add neither fails nor no-ops —
and the group-broadcast loop of `callGroupMethod` skips nil entries instead
of dereferencing them: appending a nil entry to any member list leaves the
fan-out unchanged. ("Global" is assumed free of nil entries so the lookup
scan itself cannot panic; with `verbosity > 0` the post-append logging loop
would dereference the fresh nil entry.) -/
theorem c9_addToGroup_appends_nil (e : Exchange) (g id : String)
    (hv : e.verbosity = 0)
    (hG : ∀ oc ∈ groupMembers e "Global", oc.isSome = true)
    (hGid : occCount id (groupMembers e "Global") = 0)
    (hg : occCount id (groupMembers e g) = 0) :
    addToGroup e g id =
      ({ e with groups := setGroup e.groups g (groupMembers e g ++ [none]) }, none) ∧
    groupMembers (addToGroup e g id).1 g = groupMembers e g ++ [none] ∧
    (∀ name fn : String, ∀ cargs : List GoValue, ∀ ms : Members,
      callGroupLoop (addToGroup e g id).1 name fn cargs (ms ++ [none]) =
        callGroupLoop (addToGroup e g id).1 name fn cargs ms) := by
  have hlook : getClientByConnectionID e id = Except.ok none := by
    rw [getClientByConnectionID]
    exact lookupGlobalAux_ok_none id (groupMembers e "Global") hG hGid
  have hidx : memberIndexAux id (groupMembers e g) = none :=
    (memberIndexAux_eq_none_iff id _).mpr hg
  have hcond : (getClientIndexInGroup e g id == -1) = true := by
    simp [getClientIndexInGroup, hidx]
  have h1 : addToGroup e g id =
      ({ e with groups := setGroup e.groups g (groupMembers e g ++ [none]) }, none) := by
    simp [addToGroup, hcond, hlook, hv]
  refine ⟨h1, ?_, ?_⟩
  · rw [h1]
    simp [groupMembers, membersOf_setGroup_self]
  · intro name fn cargs ms
    exact callGroupLoop_append_nil _ name fn cargs ms

/-- An exchange with one client "c1" in "Global" and no other groups. -/
def c9Exchange : Exchange :=
  { relays := [], groups := [("Global", [some wsClient1])], verbosity := 0 }

/-- Claim C9, witness: adding the unknown id "ghost" to "room9" creates the
group with a single nil entry, and a broadcast loop over a member list with
a trailing nil behaves as without it. -/
theorem c9_addToGroup_appends_nil_witness :
    addToGroup c9Exchange "room9" "ghost" =
      ({ relays := [], groups := [("Global", [some wsClient1]), ("room9", [none])],
         verbosity := 0 }, none) ∧
    callGroupLoop (addToGroup c9Exchange "room9" "ghost").1 "Chat" "Msg" []
        ([some wsClient1] ++ [none]) =
      callGroupLoop (addToGroup c9Exchange "room9" "ghost").1 "Chat" "Msg" [] [some wsClient1] := by
  have h := c9_addToGroup_appends_nil c9Exchange "room9" "ghost" rfl (by decide) (by decide)
    (by decide)
  exact ⟨h.1.trans rfl, h.2.2 "Chat" "Msg" [] [some wsClient1]⟩

/-- Outbound wire message built by the websocket `CallClientFunction`
(websocket-transport.go:69-77): the anonymous struct `{R, M, A}` — it
carries no `S` or `C` field. -/
structure OutboundMessage : Type where
  R : String
  M : String
  A : List GoValue

/-- The websocket transport's connection table as `CallClientFunction`
sees it: connection id to the queued outbound messages of that
connection's `out` channel. -/
structure WebSocketTransport : Type where
  connections : List (String × List OutboundMessage)

/-- Source `CallClientFunction` (websocket-transport.go:65-84): encodes
`{relay.Name, fn, args}` and, when the handle's connection id is present in
the table, appends the message to that connection's outbound queue; an
unknown id is a silent no-op (no error value exists to return). Reading
`relay.Name` of a nil handle panics. -/
def wsCallClientFunction (tr : WebSocketTransport) (relay : Option Relay) (fn : String)
    (args : List GoValue) : WebSocketTransport × Option GoPanic :=
  match relay with
  | none => (tr, some GoPanic.nilRelay)
  | some r =>
      let msg : OutboundMessage := { R := r.Name, M := fn, A := args }
      match tr.connections.find? (fun p => p.1 == r.ConnectionID) with
      | some _ =>
          ({ connections := tr.connections.map
              (fun p => if p.1 == r.ConnectionID then (p.1, p.2 ++ [msg]) else p) }, none)
      | none => (tr, none)

/-- Claim C7: when the target connection id is not in the transport's
table, `CallClientFunction` is a silent no-op — the transport state
(every connection's queue) is returned unchanged and no panic or error is
produced. -/
theorem c7_unknown_connection_silent_noop (tr : WebSocketTransport) (r : Relay) (fn : String)
    (args : List GoValue)
    (h : tr.connections.find? (fun p => p.1 == r.ConnectionID) = none) :
    wsCallClientFunction tr (some r) fn args = (tr, none) := by
  simp [wsCallClientFunction, h]

/-- A transport owning connection "c1" with an empty outbound queue. -/
def c7Transport : WebSocketTransport :=
  { connections := [("c1", [])] }

/-- Claim C7, witness: a call addressed to the unknown id "zz" leaves the
transport unchanged. -/
theorem c7_unknown_connection_witness :
    wsCallClientFunction c7Transport
      (some { Name := "Chat", ConnectionID := "zz", t := chatType }) "Msg" [] =
      (c7Transport, none) :=
  c7_unknown_connection_silent_noop c7Transport
    { Name := "Chat", ConnectionID := "zz", t := chatType } "Msg" [] rfl

/-- Source `webSocketClientMessage` (websocket-transport.go:27-33): the
inbound envelope `{S, R, M, A, C}`. -/
structure WebSocketClientMessage : Type where
  Server : Bool
  Relay : String
  Method : String
  Arguments : List GoValue
  ConnectionID : String

/-- Decoding an outbound `{R, M, A}` message as an envelope: JSON leaves
the absent `S` and `C` fields at their zero values. -/
def decodeOutbound (o : OutboundMessage) : WebSocketClientMessage :=
  { Server := false, Relay := o.R, Method := o.M, Arguments := o.A, ConnectionID := "" }

/-- One inbound websocket frame: either an envelope `json.Unmarshal`
accepts, or a message it rejects. -/
inductive Frame : Type
  | undecodable
  | msg (m : WebSocketClientMessage)

/-- State threaded through the `read` loop: the transport's queues and the
server-side dispatch outcomes performed so far. -/
structure ReadState : Type where
  tr : WebSocketTransport
  dispatches : List CallOutcome

/-- One iteration of the `read` loop body (websocket-transport.go:89-116):
an undecodable message is dropped (`continue` — nothing dispatched, nothing
delivered, no disconnect); a server envelope is dispatched through
`getRelayByName`/`callRelayMethod` (a nil-relay panic aborts the loop); a
client envelope is re-delivered through `CallClientFunction` — note the
missing `...` spread: `m.Arguments` is passed as a single variadic
argument, so the argument list sent on is the one-element list holding the
received list. -/
def processFrame (e : Exchange) (st : ReadState) : Frame → ReadState × Option GoPanic
  | Frame.undecodable => (st, none)
  | Frame.msg m =>
      if m.Server then
        match callRelayMethod (getRelayByName e m.Relay m.ConnectionID) m.Method m.Arguments with
        | CallOutcome.panicked p => (st, some p)
        | out => ({ st with dispatches := st.dispatches ++ [out] }, none)
      else
        let res := wsCallClientFunction st.tr (getRelayByName e m.Relay m.ConnectionID)
          m.Method [GoValue.array m.Arguments]
        ({ st with tr := res.1 }, res.2)

/-- The `read` loop (websocket-transport.go:86-119) over a finite sequence
of inbound frames, processed in order until exhausted or until a panic
unwinds the loop; the deferred disconnect notification fires only after
the loop ends (on read error or panic), never because of a decode
failure. -/
def readLoop (e : Exchange) (st : ReadState) : List Frame → ReadState × Option GoPanic
  | [] => (st, none)
  | f :: fs =>
      match processFrame e st f with
      | (st', none) => readLoop e st' fs
      | (st', some p) => (st', some p)

/-- Claim C8: an inbound message that fails to decode is dropped — the loop
iteration changes nothing (no dispatch, no delivery, no panic) and the read
loop simply continues with the remaining frames; disconnect cleanup, which
in the code runs only when `read` returns, is therefore never triggered by
a decode failure. -/
theorem c8_decode_failure_dropped (e : Exchange) (st : ReadState) (fs : List Frame) :
    processFrame e st Frame.undecodable = (st, none) ∧
    readLoop e st (Frame.undecodable :: fs) = readLoop e st fs :=
  ⟨rfl, rfl⟩

/-- The inbound client-call frame used by the C3 instance: a well-formed
envelope re-delivering method "Msg" with arguments ["x","y"] to "c1". -/
def c3Frame : Frame :=
  Frame.msg { Server := false, Relay := "Chat", Method := "Msg",
              Arguments := [GoValue.str "x", GoValue.str "y"], ConnectionID := "c1" }

/-- Claim C3: the spec says the envelope re-delivered to the target client
reproduces the received method name and the same ordered argument
sequence. The code passes `m.Arguments` to `CallClientFunction` without the
`...` spread (websocket-transport.go:114, unlike the server branch at 109),
so the enqueued envelope's argument list is the one-element list holding
the received list: for received arguments ["x","y"] the enqueued `A` is
[["x","y"]], which differs from ["x","y"] (and decoding the outbound
message also yields `S=false`, `C=""`, the omitted fields). -/
theorem c3_redelivery_wraps_arguments :
    (readLoop c6Exchange { tr := c7Transport, dispatches := [] } [c3Frame]).1.tr.connections =
      [("c1",
        [{ R := "Chat", M := "Msg", A := [GoValue.array [GoValue.str "x", GoValue.str "y"]] }])] ∧
    (decodeOutbound
        { R := "Chat", M := "Msg", A := [GoValue.array [GoValue.str "x", GoValue.str "y"]] }
      ).Arguments ≠ [GoValue.str "x", GoValue.str "y"] := by
  refine ⟨rfl, ?_⟩
  intro h
  simpa [decodeOutbound] using congrArg List.length h

/-- A transport-level connection as carried on the connected/disconnected
channels: its connection id and the identity of its outbound channel
(`conn.out`), abstracted as a token. -/
structure ConnRef : Type where
  id : String
  out : Nat
  deriving DecidableEq, Repr

/-- State owned by the websocket transport's `listen` loop
(websocket-transport.go:48-63): the connection table, the tokens of closed
outbound channels, and the exchange whose group registry the disconnect
path mutates. -/
structure ListenState : Type where
  connections : List (String × ConnRef)
  closed : List Nat
  ex : Exchange

/-- The disconnected branch of `listen` (websocket-transport.go:54-60):
only when the event's id is present in the table does it remove the id
from all groups, delete the table entry and close the event's outbound
channel; otherwise nothing happens. -/
def handleDisconnected (st : ListenState) (conn : ConnRef) : ListenState :=
  if st.connections.any (fun p => p.1 == conn.id) then
    { connections := st.connections.filter (fun p => !(p.1 == conn.id)),
      closed := st.closed ++ [conn.out],
      ex := removeFromAllGroups st.ex conn.id }
  else st

theorem any_filter_not_self (l : List (String × ConnRef)) (x : String) :
    (l.filter (fun p => !(p.1 == x))).any (fun p => p.1 == x) = false := by
  rw [List.any_eq_false]
  intro p hp
  have hmem := (List.mem_filter.mp hp).2
  simp only [Bool.not_eq_true'] at *
  exact fun hc => by rw [hc] at hmem; cases hmem

/-- Claim C10: processing a disconnected event is idempotent. For an id
absent from the table the event changes nothing — table, closed channels
and group registry all stay as they were; processing the same event twice
equals processing it once (after the first, the id is gone from the
table); and a first processing of a present id closes the event's channel
exactly once (appends its token once to the closed list). Hence the
duplicate notification sent by both `upgradeWebSocket`'s deferred send and
`read`'s deferred send closes the queue exactly once. -/
theorem c10_disconnect_idempotent (st : ListenState) (conn : ConnRef) :
    (st.connections.any (fun p => p.1 == conn.id) = false →
      handleDisconnected st conn = st) ∧
    handleDisconnected (handleDisconnected st conn) conn = handleDisconnected st conn ∧
    (st.connections.any (fun p => p.1 == conn.id) = true →
      (handleDisconnected st conn).closed = st.closed ++ [conn.out]) := by
  refine ⟨?_, ?_, ?_⟩
  · intro h
    simp [handleDisconnected, h]
  · by_cases h : st.connections.any (fun p => p.1 == conn.id) = true
    · have h1 : handleDisconnected st conn =
          { connections := st.connections.filter (fun p => !(p.1 == conn.id)),
            closed := st.closed ++ [conn.out],
            ex := removeFromAllGroups st.ex conn.id } := by
        simp [handleDisconnected, h]
      rw [h1]
      have h2 : (List.filter (fun p => !(p.1 == conn.id)) st.connections).any
          (fun p => p.1 == conn.id) = false := any_filter_not_self st.connections conn.id
      simp [handleDisconnected, h2]
    · have hf : st.connections.any (fun p => p.1 == conn.id) = false :=
        Bool.eq_false_iff.mpr h
      simp [handleDisconnected, hf]
  · intro h
    simp [handleDisconnected, h]

/-- A listen-loop state with connection "c1" (channel token 7) in the table. -/
def c10State : ListenState :=
  { connections := [("c1", { id := "c1", out := 7 })],
    closed := [],
    ex := c9Exchange }

/-- Claim C10, witness: a disconnect for the absent id "cX" is a no-op; the
duplicate disconnect for "c1" equals a single one; the single one closes
channel 7 exactly once. -/
theorem c10_disconnect_witness :
    handleDisconnected c10State { id := "cX", out := 9 } = c10State ∧
    handleDisconnected (handleDisconnected c10State { id := "c1", out := 7 })
        { id := "c1", out := 7 } =
      handleDisconnected c10State { id := "c1", out := 7 } ∧
    (handleDisconnected c10State { id := "c1", out := 7 }).closed = [7] := by
  refine ⟨?_, ?_, ?_⟩
  · exact (c10_disconnect_idempotent c10State { id := "cX", out := 9 }).1 (by decide)
  · exact (c10_disconnect_idempotent c10State { id := "c1", out := 7 }).2.1
  · exact ((c10_disconnect_idempotent c10State { id := "c1", out := 7 }).2.2 (by decide)).trans rfl

end Relayr
